import Mathlib

/-!
Verification development for the YCNBTS chat relay (Rust).

The repository implements a rendezvous server and a peer client exchanging
length-framed bincode-serialized messages over TCP, with a hybrid
RSA + AES-GCM envelope on the text-message path.

This file shallowly embeds the pieces the checked claims speak about:

* the wire codec (`src/server/client.rs::send_message`,
  `src/client/mod.rs::send_message` for encoding; the frame-reading loops in
  `Server::run` and `Client::handle` for decoding), modelling bincode's
  default configuration: fixed-width little-endian integers, `u32` variant
  tags, `u64` length-prefixed byte sequences and strings;
* the message schema of `src/shared/messages.rs` (strings are modelled as
  their UTF-8 byte lists, UUIDs as 16-byte lists, RSA public keys by their
  structured content: modulus and exponent byte sequences);
* the server's per-message handler and accept-time snapshot
  (`src/server/mod.rs::Server::run`);
* the client's inbound handler, reader loop and UI operations
  (`src/client/mod.rs`), with the external crypto primitives (`rsa`,
  `aes_gcm`, `String::from_utf8`) abstracted as function parameters, and a
  `.unwrap()` panic modelled as `Option.none`.
-/

namespace YCNBTS

/-! ## Bytes, little-endian integers -/

/-- A byte, modelled as a natural number (well-formedness bounds it below 256). -/
abbrev Byte := Nat

/-- `leBytes k n` is the `k`-byte little-endian encoding of `n`
(bincode's fixed-width integer encoding; `k = 8` for `u64`, `k = 4` for the
`u32` variant tag). -/
def leBytes : Nat → Nat → List Byte
  | 0, _ => []
  | k + 1, n => n % 256 :: leBytes k (n / 256)

/-- Read a `k`-byte little-endian integer from the front of a byte stream,
returning the value and the remaining bytes. -/
def deLE : Nat → List Byte → Option (Nat × List Byte)
  | 0, bs => some (0, bs)
  | _ + 1, [] => none
  | k + 1, b :: bs => (deLE k bs).map (fun p => (b + 256 * p.1, p.2))

theorem leBytes_length (k n : Nat) : (leBytes k n).length = k := by
  induction k generalizing n with
  | zero => rfl
  | succ k ih => simp [leBytes, ih]

theorem deLE_leBytes (k : Nat) {n : Nat} (r : List Byte) (h : n < 256 ^ k) :
    deLE k (leBytes k n ++ r) = some (n, r) := by
  induction k generalizing n with
  | zero =>
    have : n = 0 := Nat.lt_one_iff.mp (by simpa using h)
    simp [this, leBytes, deLE]
  | succ k ih =>
    have hdiv : n / 256 < 256 ^ k := by
      have : n < 256 ^ k * 256 := by
        simpa [Nat.pow_succ] using h
      exact Nat.div_lt_iff_lt_mul (by norm_num) |>.mpr this
    simp [leBytes, deLE, ih hdiv, Nat.mod_add_div]

/-! ## Length-prefixed sequences (bincode `Vec<u8>`, `String`, `serialize_bytes`) -/

/-- bincode encoding of a byte sequence: `u64` little-endian count, then the
bytes. Strings are their UTF-8 bytes under the same encoding. -/
def serBytes (bs : List Byte) : List Byte :=
  leBytes 8 bs.length ++ bs

/-- Read a `u64`-length-prefixed byte sequence. -/
def deBytes (input : List Byte) : Option (List Byte × List Byte) :=
  match deLE 8 input with
  | some (n, rest) =>
    if n ≤ rest.length then some (rest.take n, rest.drop n) else none
  | none => none

theorem deBytes_serBytes (bs r : List Byte) (h : bs.length < 2 ^ 64) :
    deBytes (serBytes bs ++ r) = some (bs, r) := by
  have h256 : bs.length < 256 ^ 8 := by norm_num at h ⊢; omega
  simp [serBytes, deBytes, deLE_leBytes (k := 8) (bs ++ r) h256,
    List.take_left, List.drop_left]

/-! ## Message schema (`src/shared/messages.rs`) -/

/-- A friendly name, as its UTF-8 byte list (Rust `String`). -/
abbrev Name := List Byte

/-- A 128-bit identifier: the 16 bytes of `uuid::Uuid` (serde serializes a
`Uuid` as those bytes via `serialize_bytes`). -/
abbrev Uuid := List Byte

/-- The content of an `rsa::RsaPublicKey` as serialized by the external `rsa`
crate: modulus and public exponent, each a length-prefixed big-integer byte
sequence. -/
structure RsaKey where
  modulus : List Byte
  exponent : List Byte
  deriving DecidableEq, Repr

instance : Inhabited RsaKey := ⟨⟨[], []⟩⟩

/-- `type ClientDescription = (String, Uuid)` from `src/shared/messages.rs`. -/
abbrev ClientDescription := Name × Uuid

/-- `enum ServerBoundMessage` from `src/shared/messages.rs`, in declared
variant order (the wire tag is the zero-based ordinal). -/
inductive ServerBoundMessage where
  | advertise (name : Name)
  | connectionRequest (desc : ClientDescription) (key : RsaKey)
  | connectionResponse (desc : ClientDescription) (key : RsaKey)
  | message (desc : ClientDescription) (envelope : List Byte × List Byte × List Byte)
  deriving DecidableEq, Repr

/-- `enum ClientBoundMessage` from `src/shared/messages.rs`, in declared
variant order. -/
inductive ClientBoundMessage where
  | setUuid (id : Uuid)
  | clientList (snapshot : List ClientDescription)
  | newClient (desc : ClientDescription)
  | clientDisconnected (id : Uuid)
  | connectionRequest (desc : ClientDescription) (key : RsaKey)
  | connectionResponse (desc : ClientDescription) (key : RsaKey)
  | message (desc : ClientDescription) (envelope : List Byte × List Byte × List Byte)
  deriving DecidableEq, Repr

/-! ## Serialization of schema components (bincode default configuration) -/

/-- A serde `Uuid` serializes as `serialize_bytes` of its 16 bytes, which
bincode length-prefixes like any byte sequence. -/
def serUuid (u : Uuid) : List Byte := serBytes u

/-- Read a `Uuid`: a length-prefixed byte sequence that must be exactly
16 bytes (the `uuid` crate's deserializer rejects other lengths). -/
def deUuid (input : List Byte) : Option (Uuid × List Byte) :=
  match deBytes input with
  | some (bs, rest) => if bs.length = 16 then some (bs, rest) else none
  | none => none

/-- Serialize an RSA public key: modulus then exponent, each length-prefixed. -/
def serRsa (k : RsaKey) : List Byte := serBytes k.modulus ++ serBytes k.exponent

/-- Read an RSA public key. -/
def deRsa (input : List Byte) : Option (RsaKey × List Byte) :=
  match deBytes input with
  | some (m, rest) =>
    match deBytes rest with
    | some (e, rest') => some (⟨m, e⟩, rest')
    | none => none
  | none => none

/-- Serialize a `ClientDescription`: the tuple fields in order. -/
def serDesc (d : ClientDescription) : List Byte := serBytes d.1 ++ serUuid d.2

/-- Read a `ClientDescription`. -/
def deDesc (input : List Byte) : Option (ClientDescription × List Byte) :=
  match deBytes input with
  | some (n, rest) =>
    match deUuid rest with
    | some (u, rest') => some ((n, u), rest')
    | none => none
  | none => none

/-- Serialize a `Vec<ClientDescription>`: `u64` count, then the elements. -/
def serDescList (l : List ClientDescription) : List Byte :=
  leBytes 8 l.length ++ (l.map serDesc).flatten

/-- Read exactly `n` `ClientDescription`s. -/
def deDescCount : Nat → List Byte → Option (List ClientDescription × List Byte)
  | 0, input => some ([], input)
  | n + 1, input =>
    match deDesc input with
    | some (d, rest) =>
      match deDescCount n rest with
      | some (ds, rest') => some (d :: ds, rest')
      | none => none
    | none => none

/-- Read a `Vec<ClientDescription>`. -/
def deDescList (input : List Byte) : Option (List ClientDescription × List Byte) :=
  match deLE 8 input with
  | some (n, rest) => deDescCount n rest
  | none => none

/-- Serialize the envelope triple `(Vec<u8>, Vec<u8>, Vec<u8>)`. -/
def serTriple (t : List Byte × List Byte × List Byte) : List Byte :=
  serBytes t.1 ++ serBytes t.2.1 ++ serBytes t.2.2

/-- Read the envelope triple. -/
def deTriple (input : List Byte) :
    Option ((List Byte × List Byte × List Byte) × List Byte) :=
  match deBytes input with
  | some (a, r1) =>
    match deBytes r1 with
    | some (b, r2) =>
      match deBytes r2 with
      | some (c, r3) => some ((a, b, c), r3)
      | none => none
    | none => none
  | none => none

/-! ## Serialization of the two message unions -/

/-- bincode payload of a `ServerBoundMessage`: `u32` little-endian variant
tag (declared order), then the fields. -/
def serServer : ServerBoundMessage → List Byte
  | .advertise n => leBytes 4 0 ++ serBytes n
  | .connectionRequest d k => leBytes 4 1 ++ serDesc d ++ serRsa k
  | .connectionResponse d k => leBytes 4 2 ++ serDesc d ++ serRsa k
  | .message d t => leBytes 4 3 ++ serDesc d ++ serTriple t

/-- bincode payload of a `ClientBoundMessage`. -/
def serClient : ClientBoundMessage → List Byte
  | .setUuid u => leBytes 4 0 ++ serUuid u
  | .clientList l => leBytes 4 1 ++ serDescList l
  | .newClient d => leBytes 4 2 ++ serDesc d
  | .clientDisconnected u => leBytes 4 3 ++ serUuid u
  | .connectionRequest d k => leBytes 4 4 ++ serDesc d ++ serRsa k
  | .connectionResponse d k => leBytes 4 5 ++ serDesc d ++ serRsa k
  | .message d t => leBytes 4 6 ++ serDesc d ++ serTriple t

/-- Deserialize a `ServerBoundMessage` payload (trailing bytes are ignored,
as `bincode::deserialize_from` stops after one value). -/
def deServer (input : List Byte) : Option ServerBoundMessage :=
  match deLE 4 input with
  | none => none
  | some (tag, rest) =>
    if tag = 0 then (deBytes rest).map (fun p => .advertise p.1)
    else if tag = 1 then
      match deDesc rest with
      | some (d, rest') => (deRsa rest').map (fun p => .connectionRequest d p.1)
      | none => none
    else if tag = 2 then
      match deDesc rest with
      | some (d, rest') => (deRsa rest').map (fun p => .connectionResponse d p.1)
      | none => none
    else if tag = 3 then
      match deDesc rest with
      | some (d, rest') => (deTriple rest').map (fun p => .message d p.1)
      | none => none
    else none

/-- Deserialize a `ClientBoundMessage` payload. -/
def deClient (input : List Byte) : Option ClientBoundMessage :=
  match deLE 4 input with
  | none => none
  | some (tag, rest) =>
    if tag = 0 then (deUuid rest).map (fun p => .setUuid p.1)
    else if tag = 1 then (deDescList rest).map (fun p => .clientList p.1)
    else if tag = 2 then (deDesc rest).map (fun p => .newClient p.1)
    else if tag = 3 then (deUuid rest).map (fun p => .clientDisconnected p.1)
    else if tag = 4 then
      match deDesc rest with
      | some (d, rest') => (deRsa rest').map (fun p => .connectionRequest d p.1)
      | none => none
    else if tag = 5 then
      match deDesc rest with
      | some (d, rest') => (deRsa rest').map (fun p => .connectionResponse d p.1)
      | none => none
    else if tag = 6 then
      match deDesc rest with
      | some (d, rest') => (deTriple rest').map (fun p => .message d p.1)
      | none => none
    else none

/-! ## Framing (`send_message` in `src/server/client.rs` and
`src/client/mod.rs`, and the reading loops in `Server::run` /
`Client::handle`) -/

/-- `send_message`: serialize the payload, serialize its length as `u64`,
prepend, write. -/
def encodeFrame (payload : List Byte) : List Byte :=
  leBytes 8 payload.length ++ payload

/-- The reading loop: read 8 bytes, bincode-deserialize a `u64` length, read
exactly that many bytes, deserialize one value from them. -/
def decodeFrame {α : Type} (de : List Byte → Option α) (input : List Byte) :
    Option α :=
  match deLE 8 input with
  | some (n, rest) => if n ≤ rest.length then de (rest.take n) else none
  | none => none

/-- A framed server-bound message as the client writes it. -/
def encodeServer (m : ServerBoundMessage) : List Byte := encodeFrame (serServer m)

/-- A framed client-bound message as the server writes it. -/
def encodeClient (m : ClientBoundMessage) : List Byte := encodeFrame (serClient m)

/-- One server-side read of a framed `ServerBoundMessage`. -/
def decodeServer (input : List Byte) : Option ServerBoundMessage :=
  decodeFrame deServer input

/-- One client-side read of a framed `ClientBoundMessage`. -/
def decodeClient (input : List Byte) : Option ClientBoundMessage :=
  decodeFrame deClient input

/-! ## Well-formedness: every length fits in a `u64`, UUIDs are 16 bytes.
These hold of any value the Rust program can build (Rust lengths are
`usize ≤ u64`, `uuid::Uuid` is 16 bytes); they are stated explicitly because
the Lean model uses unbounded lists. -/

/-- Byte sequences representable as a Rust `Vec<u8>`/`String`. -/
def wfBytes (bs : List Byte) : Prop := bs.length < 2 ^ 64

/-- A well-formed UUID: exactly 16 bytes. -/
def wfUuid (u : Uuid) : Prop := u.length = 16

/-- A well-formed description. -/
def wfDesc (d : ClientDescription) : Prop := wfBytes d.1 ∧ wfUuid d.2

/-- A well-formed RSA key. -/
def wfRsa (k : RsaKey) : Prop := wfBytes k.modulus ∧ wfBytes k.exponent

/-- A well-formed envelope triple. -/
def wfTriple (t : List Byte × List Byte × List Byte) : Prop :=
  wfBytes t.1 ∧ wfBytes t.2.1 ∧ wfBytes t.2.2

/-- Well-formed server-bound messages. -/
def wfServer : ServerBoundMessage → Prop
  | .advertise n => wfBytes n
  | .connectionRequest d k => wfDesc d ∧ wfRsa k
  | .connectionResponse d k => wfDesc d ∧ wfRsa k
  | .message d t => wfDesc d ∧ wfTriple t

/-- Well-formed client-bound messages. -/
def wfClient : ClientBoundMessage → Prop
  | .setUuid u => wfUuid u
  | .clientList l => l.length < 2 ^ 64 ∧ ∀ d ∈ l, wfDesc d
  | .newClient d => wfDesc d
  | .clientDisconnected u => wfUuid u
  | .connectionRequest d k => wfDesc d ∧ wfRsa k
  | .connectionResponse d k => wfDesc d ∧ wfRsa k
  | .message d t => wfDesc d ∧ wfTriple t

instance : DecidablePred wfBytes := fun bs => by unfold wfBytes; infer_instance

instance : DecidablePred wfUuid := fun u => by unfold wfUuid; infer_instance

instance : DecidablePred wfDesc := fun d => by unfold wfDesc; infer_instance

instance : DecidablePred wfRsa := fun k => by unfold wfRsa; infer_instance

instance : DecidablePred wfTriple := fun t => by unfold wfTriple; infer_instance

instance : DecidablePred wfServer := fun m => by
  cases m <;> unfold wfServer <;> infer_instance

instance : DecidablePred wfClient := fun m => by
  cases m <;> unfold wfClient <;> infer_instance

/-! ## Codec round-trip lemmas -/

/-- Variant tags fit in their four bytes. -/
theorem deLE_tag (t : Nat) (r : List Byte) (h : t < 4294967296) :
    deLE 4 (leBytes 4 t ++ r) = some (t, r) := by
  have h4 : (256 : Nat) ^ 4 = 4294967296 := by norm_num
  exact deLE_leBytes 4 r (h4 ▸ h)

theorem deUuid_serUuid (u : Uuid) (r : List Byte) (h : wfUuid u) :
    deUuid (serUuid u ++ r) = some (u, r) := by
  have h16 : u.length = 16 := h
  have hlen : u.length < 2 ^ 64 := by rw [h16]; norm_num
  simp [deUuid, serUuid, deBytes_serBytes u r hlen, h16]

theorem deRsa_serRsa (k : RsaKey) (r : List Byte) (h : wfRsa k) :
    deRsa (serRsa k ++ r) = some (k, r) := by
  obtain ⟨h1, h2⟩ := h
  simp [deRsa, serRsa, deBytes_serBytes k.modulus _ h1, deBytes_serBytes k.exponent r h2]

theorem deDesc_serDesc (d : ClientDescription) (r : List Byte) (h : wfDesc d) :
    deDesc (serDesc d ++ r) = some (d, r) := by
  obtain ⟨h1, h2⟩ := h
  simp [deDesc, serDesc, deBytes_serBytes d.1 _ h1, deUuid_serUuid d.2 r h2]

theorem deTriple_serTriple (t : List Byte × List Byte × List Byte) (r : List Byte)
    (h : wfTriple t) : deTriple (serTriple t ++ r) = some (t, r) := by
  obtain ⟨h1, h2, h3⟩ := h
  simp [deTriple, serTriple, deBytes_serBytes t.1 _ h1, deBytes_serBytes t.2.1 _ h2,
    deBytes_serBytes t.2.2 r h3]

theorem deDescCount_flatten (l : List ClientDescription) (r : List Byte)
    (h : ∀ d ∈ l, wfDesc d) :
    deDescCount l.length ((l.map serDesc).flatten ++ r) = some (l, r) := by
  induction l with
  | nil => simp [deDescCount]
  | cons d l ih =>
    have hd : wfDesc d := h d (List.mem_cons_self d l)
    have hl : ∀ x ∈ l, wfDesc x := fun x hx => h x (List.mem_cons_of_mem d hx)
    simp [deDescCount, List.append_assoc, deDesc_serDesc d _ hd, ih hl]

theorem deDescList_serDescList (l : List ClientDescription) (r : List Byte)
    (hlen : l.length < 2 ^ 64) (h : ∀ d ∈ l, wfDesc d) :
    deDescList (serDescList l ++ r) = some (l, r) := by
  have h256 : l.length < 256 ^ 8 := by norm_num at hlen ⊢; omega
  simp [deDescList, serDescList, deLE_leBytes (k := 8) _ h256,
    deDescCount_flatten l r h]

theorem deServer_serServer (m : ServerBoundMessage) (r : List Byte)
    (h : wfServer m) : deServer (serServer m ++ r) = some m := by
  cases m with
  | advertise n =>
    have hn : wfBytes n := h
    simp [serServer, deServer, deLE_tag,
      deBytes_serBytes n r hn]
  | connectionRequest d k =>
    obtain ⟨hd, hk⟩ := h
    simp [serServer, deServer, deLE_tag,
      List.append_assoc, deDesc_serDesc d _ hd, deRsa_serRsa k r hk]
  | connectionResponse d k =>
    obtain ⟨hd, hk⟩ := h
    simp [serServer, deServer, deLE_tag,
      List.append_assoc, deDesc_serDesc d _ hd, deRsa_serRsa k r hk]
  | message d t =>
    obtain ⟨hd, ht⟩ := h
    simp [serServer, deServer, deLE_tag,
      List.append_assoc, deDesc_serDesc d _ hd, deTriple_serTriple t r ht]

theorem deClient_serClient (m : ClientBoundMessage) (r : List Byte)
    (h : wfClient m) : deClient (serClient m ++ r) = some m := by
  cases m with
  | setUuid u =>
    have hu : wfUuid u := h
    simp [serClient, deClient, deLE_tag,
      deUuid_serUuid u r hu]
  | clientList l =>
    obtain ⟨hl, hd⟩ := h
    simp [serClient, deClient, deLE_tag,
      deDescList_serDescList l r hl hd]
  | newClient d =>
    have hd : wfDesc d := h
    simp [serClient, deClient, deLE_tag,
      deDesc_serDesc d r hd]
  | clientDisconnected u =>
    have hu : wfUuid u := h
    simp [serClient, deClient, deLE_tag,
      deUuid_serUuid u r hu]
  | connectionRequest d k =>
    obtain ⟨hd, hk⟩ := h
    simp [serClient, deClient, deLE_tag,
      List.append_assoc, deDesc_serDesc d _ hd, deRsa_serRsa k r hk]
  | connectionResponse d k =>
    obtain ⟨hd, hk⟩ := h
    simp [serClient, deClient, deLE_tag,
      List.append_assoc, deDesc_serDesc d _ hd, deRsa_serRsa k r hk]
  | message d t =>
    obtain ⟨hd, ht⟩ := h
    simp [serClient, deClient, deLE_tag,
      List.append_assoc, deDesc_serDesc d _ hd, deTriple_serTriple t r ht]

theorem decodeFrame_encodeFrame {α : Type} (de : List Byte → Option α)
    (payload : List Byte) (h : payload.length < 2 ^ 64) :
    decodeFrame de (encodeFrame payload) = de payload := by
  have h256 : payload.length < 256 ^ 8 := by norm_num at h ⊢; omega
  have := deLE_leBytes (k := 8) payload h256
  simp [decodeFrame, encodeFrame, this]

/-! ## Server model (`src/server/mod.rs::Server::run`) -/

/-- The server's peer table: for each connected peer, its UUID and optional
friendly name (the `HashMap<Uuid, Client>` with each record's
`friendly_name`). Modelled as an association list; uniqueness of UUID keys is
an explicit hypothesis where needed. -/
abbrev PeerTable := List (Uuid × Option Name)

/-- The friendly name stored for `u`, if `u` is in the table. -/
def lookupName (table : PeerTable) (u : Uuid) : Option (Option Name) :=
  (table.find? (fun e => e.1 = u)).map (fun e => e.2)

/-- Whether `u` is a key of the table (`clients.get(&id).is_some()`). -/
def tableHas (table : PeerTable) (u : Uuid) : Bool :=
  table.any (fun e => e.1 = u)

/-- Set the friendly name of peer `u`
(`*client.friendly_name.lock().unwrap() = Some(name)`). -/
def setName (table : PeerTable) (u : Uuid) (name : Name) : PeerTable :=
  table.map (fun e => if e.1 = u then (e.1, some name) else e)

/-- `friendly_name.clone().unwrap_or("".to_string())`: the sender's
name-or-empty as the server rewrites descriptions. -/
def nameOrEmpty (table : PeerTable) (u : Uuid) : Name :=
  ((lookupName table u).getD none).getD []

/-- What the server actually constructs and writes to a peer in
`Server::run`. The `connectionRequestNoKey` constructor mirrors line 95 of
`src/server/mod.rs`, which builds a `ClientBoundMessage::ConnectionRequest`
from the rewritten description alone — the declared variant in
`src/shared/messages.rs` has a second `RsaPublicKey` field that the server
never supplies (the construction does not typecheck against the schema). -/
inductive ServerSend where
  | setUuid (id : Uuid)
  | clientList (snapshot : List ClientDescription)
  | newClient (desc : ClientDescription)
  | clientDisconnected (id : Uuid)
  | connectionRequestNoKey (desc : ClientDescription)
  | connectionResponse (desc : ClientDescription) (key : RsaKey)
  deriving DecidableEq, Repr

/-- One iteration of the server's reader loop for the connection of `sender`,
given a decoded `ServerBoundMessage` (lines 83–110 of `src/server/mod.rs`).
Returns the updated peer table and the list of `(recipient, message)` writes
performed. The `Message` variant is not matched by any arm: it falls into the
wildcard arm, which only logs `"Unhandled message"` and performs no write and
no state change. -/
def serverStep (table : PeerTable) (sender : Uuid) :
    ServerBoundMessage → PeerTable × List (Uuid × ServerSend)
  | .advertise name =>
    let table' := setName table sender name
    (table', table'.map (fun e => (e.1, .newClient (name, sender))))
  | .connectionRequest desc _key =>
    if tableHas table desc.2 then
      (table, [(desc.2, .connectionRequestNoKey (nameOrEmpty table sender, sender))])
    else (table, [])
  | .connectionResponse desc key =>
    if tableHas table desc.2 then
      (table, [(desc.2, .connectionResponse (nameOrEmpty table sender, sender) key)])
    else (table, [])
  | .message _ _ => (table, [])

/-- The accept-time snapshot (lines 130–134 of `src/server/mod.rs`): every
table entry whose friendly name is set, as `(name, uuid)` pairs. -/
def snapshot (table : PeerTable) : List ClientDescription :=
  table.filterMap (fun e => e.2.map (fun n => (n, e.1)))

/-- Accepting a connection (lines 29–41, 127–139): insert a record with no
friendly name, then send `SetUuid` and the `ClientList` snapshot of the
updated table to the new peer. -/
def acceptPeer (table : PeerTable) (newId : Uuid) :
    PeerTable × List (Uuid × ServerSend) :=
  let table' := table ++ [(newId, none)]
  (table', [(newId, .setUuid newId), (newId, .clientList (snapshot table'))])

/-! ## Client model (`src/client/mod.rs`) -/

/-- The external cryptographic primitives used by the client, abstracted as
functions: `rsa::RsaPublicKey::encrypt` / `RsaPrivateKey::decrypt` with
PKCS#1 v1.5 (the private key is the client's own, fixed at startup),
AES-256-GCM `encrypt` / `decrypt` (key, nonce, text), and
`String::as_bytes` / `String::from_utf8`. Fallible steps return `Option`;
the Rust code calls `.unwrap()` on each, so `none` models a panic. -/
structure Crypto where
  rsaEncrypt : RsaKey → List Byte → List Byte
  rsaDecrypt : List Byte → Option (List Byte)
  aesEncrypt : List Byte → List Byte → List Byte → List Byte
  aesDecrypt : List Byte → List Byte → List Byte → Option (List Byte)
  utf8Encode : String → List Byte
  utf8Decode : List Byte → Option String

/-- The client's shared state (`struct Client`, minus the socket halves and
the fixed keypair). `connection_requests` and `open_connections` are
`HashMap`s, modelled as association lists. -/
structure ClientState where
  peer_list : List ClientDescription
  uuid : Option Uuid
  connection_requests : List (ClientDescription × RsaKey)
  open_connections : List (Uuid × RsaKey)
  current_channel : Option Uuid
  deriving DecidableEq, Repr

/-- The state right after `Client::new`: everything empty. -/
def initialClientState : ClientState :=
  { peer_list := []
    uuid := none
    connection_requests := []
    open_connections := []
    current_channel := none }

/-- `HashMap::get` on an association list. -/
def lookupKey (m : List (Uuid × RsaKey)) (u : Uuid) : Option RsaKey :=
  (m.find? (fun e => e.1 = u)).map (fun e => e.2)

/-- `HashMap::contains_key`. -/
def hasKey (m : List (Uuid × RsaKey)) (u : Uuid) : Bool :=
  m.any (fun e => e.1 = u)

/-- `HashMap::insert`: replace the binding if the key is present, otherwise
add it. -/
def insertKey (m : List (Uuid × RsaKey)) (u : Uuid) (k : RsaKey) :
    List (Uuid × RsaKey) :=
  if m.any (fun e => e.1 = u) then
    m.map (fun e => if e.1 = u then (u, k) else e)
  else m ++ [(u, k)]

/-- A plaintext delivered to the UI: the resolved peer name and the decoded
message text (the `println!("{}: {}", name, message)` at line 148). -/
abbrev UiDelivery := Name × String

/-- Resolve a sender's friendly name through `peer_list`, with fallback
`"Unknown"` (lines 131–138); the fallback is that string's UTF-8 bytes. -/
def resolveName (s : ClientState) (d : ClientDescription) : Name :=
  ((s.peer_list.find? (fun e => e.2 = d.2)).map (fun e => e.1)).getD
    [85, 110, 107, 110, 111, 119, 110]

/-- One iteration of `Client::handle` (lines 100–154 of
`src/client/mod.rs`) on a decoded `ClientBoundMessage`. Returns `none` when
the code panics (an `.unwrap()` on a failed crypto step in the `Message`
arm, which aborts the reader task), otherwise the updated state and the UI
deliveries. -/
def clientStep (c : Crypto) (s : ClientState) :
    ClientBoundMessage → Option (ClientState × List UiDelivery)
  | .setUuid u => some ({ s with uuid := some u }, [])
  | .clientList l => some ({ s with peer_list := l }, [])
  | .newClient d => some ({ s with peer_list := s.peer_list ++ [d] }, [])
  | .clientDisconnected u =>
    some ({ s with peer_list := s.peer_list.filter (fun e => e.2 ≠ u) }, [])
  | .connectionRequest d k =>
    if s.connection_requests.any (fun e => e.1.2 = d.2) then some (s, [])
    else some ({ s with connection_requests := s.connection_requests ++ [(d, k)] }, [])
  | .connectionResponse d k =>
    some ({ s with open_connections := insertKey s.open_connections d.2 k }, [])
  | .message d env =>
    match c.rsaDecrypt env.1 with
    | none => none
    | some sessionKey =>
      if sessionKey.length = 32 then
        match c.aesDecrypt sessionKey env.2.1 env.2.2 with
        | none => none
        | some plain =>
          match c.utf8Decode plain with
          | none => none
          | some text => some (s, [(resolveName s d, text)])
      else none

/-- The client's reader loop (`Client::handle`) over a list of already
framed-and-decoded inbound messages. The boolean records whether the loop
aborted (a panic in `clientStep`); messages after an abort are never
processed. -/
def runReader (c : Crypto) : ClientState → List ClientBoundMessage →
    ClientState × List UiDelivery × Bool
  | s, [] => (s, [], false)
  | s, m :: ms =>
    match clientStep c s m with
    | none => (s, [], true)
    | some (s', out) =>
      let r := runReader c s' ms
      (r.1, out ++ r.2.1, r.2.2)

/-- `Client::open_connection` with an explicit target id (lines 243–261 of
`src/client/mod.rs`): if the id is an established pairing, select it as the
current channel and send nothing; otherwise send a `ConnectionRequest` with
an empty name and the client's own public key, leaving the state unchanged. -/
def openConnection (s : ClientState) (u : Uuid) (ownPk : RsaKey) :
    ClientState × List ServerBoundMessage :=
  if hasKey s.open_connections u then
    ({ s with current_channel := some u }, [])
  else
    (s, [.connectionRequest ([], u) ownPk])

/-- `Client::accept_connection` (lines 303–329) once the user has picked the
pending request `e`: insert the requester's key into `open_connections` and
send a `ConnectionResponse`. The chosen entry is drawn from
`connection_requests` (enforced at the step relation). -/
def acceptConnection (s : ClientState) (ownPk : RsaKey)
    (e : ClientDescription × RsaKey) : ClientState × List ServerBoundMessage :=
  ({ s with open_connections := insertKey s.open_connections e.1.2 e.2 },
   [.connectionResponse e.1 ownPk])

/-- The hybrid envelope as `ui_send_message` builds it (lines 334–349):
RSA-encrypt the session key under the recipient's public key; the nonce in
clear; AES-256-GCM ciphertext of the UTF-8 plaintext. -/
def buildEnvelope (c : Crypto) (pk : RsaKey) (sessionKey nonce : List Byte)
    (text : String) : List Byte × List Byte × List Byte :=
  (c.rsaEncrypt pk sessionKey, nonce, c.aesEncrypt sessionKey nonce (c.utf8Encode text))

/-- `Client::ui_send_message` (lines 331–354). The freshly sampled session
key and nonce are passed in explicitly (the code samples them from `OsRng`).
Returns `none` when the code panics: the `.unwrap()` on the
`open_connections` lookup for the current channel. With no current channel
it prints a notice and sends nothing. -/
def uiSendMessage (c : Crypto) (s : ClientState) (sessionKey nonce : List Byte)
    (text : String) : Option (ClientState × List ServerBoundMessage) :=
  match s.current_channel with
  | some ch =>
    match lookupKey s.open_connections ch with
    | some pk => some (s, [.message ([], ch) (buildEnvelope c pk sessionKey nonce text)])
    | none => none
  | none => some (s, [])

/-- The states a client can reach from startup through its operations: the
inbound handler (`Client::handle`), the initiator path of
`open_connection`, `accept_connection` on a chosen pending request, and
`ui_send_message` (when it does not panic). `c` is the client's crypto
environment and `ownPk` its public key, both fixed at startup. -/
inductive Reach (c : Crypto) (ownPk : RsaKey) : ClientState → Prop where
  | init : Reach c ownPk initialClientState
  | inbound {s s' : ClientState} {m : ClientBoundMessage} {out : List UiDelivery} :
      Reach c ownPk s → clientStep c s m = some (s', out) → Reach c ownPk s'
  | openConn {s : ClientState} (u : Uuid) :
      Reach c ownPk s → Reach c ownPk (openConnection s u ownPk).1
  | accept {s : ClientState} {e : ClientDescription × RsaKey} :
      Reach c ownPk s → e ∈ s.connection_requests →
      Reach c ownPk (acceptConnection s ownPk e).1
  | send {s s' : ClientState} {k n : List Byte} {t : String}
      {msgs : List ServerBoundMessage} :
      Reach c ownPk s → uiSendMessage c s k n t = some (s', msgs) →
      Reach c ownPk s'

/-- The inbound-`Message` decryption path of `Client::handle` (lines
140–146), in isolation: RSA-decrypt the session key with the client's own
private key, build the AES-256-GCM cipher from it (the `Key::from_slice`
panics unless the key is 32 bytes), decrypt, UTF-8-decode. -/
def openEnvelope (c : Crypto) (env : List Byte × List Byte × List Byte) :
    Option String :=
  match c.rsaDecrypt env.1 with
  | none => none
  | some sessionKey =>
    if sessionKey.length = 32 then
      match c.aesDecrypt sessionKey env.2.1 env.2.2 with
      | none => none
      | some plain => c.utf8Decode plain
    else none

/-! ## Helper lemmas -/

theorem hasKey_insertKey_mono (m : List (Uuid × RsaKey)) (u v : Uuid) (k : RsaKey)
    (h : hasKey m v = true) : hasKey (insertKey m u k) v = true := by
  unfold insertKey
  by_cases hu : m.any (fun e => e.1 = u)
  · simp only [hu, if_true]
    simp only [hasKey, List.any_eq_true, decide_eq_true_eq] at h ⊢
    obtain ⟨e, he, hev⟩ := h
    by_cases heu : e.1 = u
    · exact ⟨(u, k), List.mem_map.mpr ⟨e, he, by simp [heu]⟩, by simp [← hev, heu]⟩
    · exact ⟨e, List.mem_map.mpr ⟨e, he, by simp [heu]⟩, hev⟩
  · simp only [hu, if_false]
    simp only [hasKey, List.any_eq_true] at h ⊢
    obtain ⟨e, he, hev⟩ := h
    exact ⟨e, List.mem_append_left _ he, hev⟩

theorem lookupKey_isSome_of_hasKey (m : List (Uuid × RsaKey)) (u : Uuid)
    (h : hasKey m u = true) : (lookupKey m u).isSome = true := by
  induction m with
  | nil => simp [hasKey] at h
  | cons e m ih =>
    by_cases he : e.1 = u
    · simp [lookupKey, List.find?_cons, he]
    · have h' : hasKey m u = true := by
        simpa [hasKey, List.any_cons, he] using h
      simpa [lookupKey, List.find?_cons, he] using ih h'

theorem mem_snapshot (t : PeerTable) (n : Name) (u : Uuid) :
    (n, u) ∈ snapshot t ↔ (u, some n) ∈ t := by
  simp only [snapshot, List.mem_filterMap]
  constructor
  · rintro ⟨⟨a1, a2⟩, ha, hf⟩
    simp only [Option.map_eq_some'] at hf
    obtain ⟨x, hx, hxe⟩ := hf
    obtain ⟨rfl, rfl⟩ := Prod.mk.injEq .. |>.mp hxe
    simpa [hx] using ha
  · intro h
    exact ⟨(u, some n), h, rfl⟩

theorem snapshot_map_snd_sublist (t : PeerTable) :
    ((snapshot t).map Prod.snd).Sublist (t.map Prod.fst) := by
  induction t with
  | nil => simp [snapshot]
  | cons e t ih =>
    cases h2 : e.2 with
    | none =>
      simpa [snapshot, h2] using ih.cons e.1
    | some n =>
      simpa [snapshot, h2] using ih.cons₂ e.1

theorem snapshot_nodup (t : PeerTable) (h : (t.map Prod.fst).Nodup) :
    (snapshot t).Nodup :=
  List.Nodup.of_map Prod.snd (((snapshot_map_snd_sublist t)).nodup h)

/-! ## Claims -/

/-- C1: the spec says an inbound `ServerBoundMessage::Message` whose target
is in the peer table is forwarded to it. In the code (`src/server/mod.rs`
lines 83–110) no match arm handles `Message`: it falls into the wildcard
arm, which only logs `"Unhandled message"`. For every table — in particular
any table containing the target — the handler performs no write to any peer
and leaves the table unchanged, so no message is ever forwarded. -/
theorem C1_message_never_forwarded (table : PeerTable) (sender : Uuid)
    (desc : ClientDescription) (env : List Byte × List Byte × List Byte) :
    serverStep table sender (.message desc env) = (table, []) := rfl

/-- C2: the spec says the carried RSA public key of an inbound
`ConnectionRequest` is forwarded unchanged. In the code
(`src/server/mod.rs` line 95) the forwarded `ConnectionRequest` is built
from the rewritten description alone — the handler's result is identical
for any two carried keys, so the key cannot be part of what the target
receives (the construction also fails to supply the `RsaPublicKey` field the
schema declares). -/
theorem C2_request_key_dropped (table : PeerTable) (sender : Uuid)
    (desc : ClientDescription) (k₁ k₂ : RsaKey) :
    serverStep table sender (.connectionRequest desc k₁) =
      serverStep table sender (.connectionRequest desc k₂) := rfl

/-- C4: the wire codec round-trips: for every well-formed variant of either
message union, decoding the framed encoding yields the variant back, and the
framed encoding is the 8-byte little-endian `u64` byte count of the
serialized payload followed by that payload. -/
theorem C4_codec_round_trip :
    (∀ m : ServerBoundMessage, wfServer m → (serServer m).length < 2 ^ 64 →
      decodeServer (encodeServer m) = some m ∧
      encodeServer m = leBytes 8 (serServer m).length ++ serServer m ∧
      (leBytes 8 (serServer m).length).length = 8) ∧
    (∀ m : ClientBoundMessage, wfClient m → (serClient m).length < 2 ^ 64 →
      decodeClient (encodeClient m) = some m ∧
      encodeClient m = leBytes 8 (serClient m).length ++ serClient m ∧
      (leBytes 8 (serClient m).length).length = 8) := by
  constructor
  · intro m hwf hlen
    refine ⟨?_, rfl, leBytes_length 8 _⟩
    have hframe := decodeFrame_encodeFrame deServer (serServer m) hlen
    unfold decodeServer encodeServer
    rw [hframe]
    simpa using deServer_serServer m [] hwf
  · intro m hwf hlen
    refine ⟨?_, rfl, leBytes_length 8 _⟩
    have hframe := decodeFrame_encodeFrame deClient (serClient m) hlen
    unfold decodeClient encodeClient
    rw [hframe]
    simpa using deClient_serClient m [] hwf

/-- Witness for C4: the round trip evaluated on one concrete variant of each
union. -/
theorem C4_codec_round_trip_witness :
    decodeServer (encodeServer (.advertise [104, 105])) =
      some (.advertise [104, 105]) ∧
    decodeClient (encodeClient (.setUuid (List.replicate 16 0))) =
      some (.setUuid (List.replicate 16 0)) :=
  ⟨(C4_codec_round_trip.1 (.advertise [104, 105]) (by decide) (by decide)).1,
   (C4_codec_round_trip.2 (.setUuid (List.replicate 16 0)) (by decide)
      (by decide)).1⟩

/-- A concrete crypto environment whose RSA decryption always fails: it
models a client receiving an encrypted session key its private key cannot
decrypt. The other primitives are trivial stand-ins. -/
def cryptoRsaFails : Crypto where
  rsaEncrypt := fun _ k => k
  rsaDecrypt := fun _ => none
  aesEncrypt := fun _ _ m => m
  aesDecrypt := fun _ _ ct => some ct
  utf8Encode := fun t => t.toList.map Char.toNat
  utf8Decode := fun _ => some ""

/-- A concrete 16-byte identifier for examples. -/
def uuidA : Uuid := List.replicate 16 1

/-- C3 counterexample: the claim says a decryption failure is fatal for that
message only and the reader loop continues. At this concrete input the RSA
decryption of the session key fails, the `.unwrap()` panics (modelled as
abort), the reader loop ends, and the following `SetUuid` message is never
processed: the final state is still the initial one and the abort flag is
set, where the claim predicts a continuing loop that would have stored the
uuid. -/
theorem C3_counterexample :
    runReader cryptoRsaFails initialClientState
      [.message ([], uuidA) ([0], [0], [0]), .setUuid uuidA] =
      (initialClientState, [], true) := rfl

/-- C3 as amended: a failure of any decryption step on the inbound `Message`
path (RSA-decrypt of the session key, AES-GCM decrypt, or UTF-8 decoding —
i.e. any failure of the decryption pipeline) panics the reader task: the
handler aborts and the reader loop terminates without processing the
remaining messages, rather than continuing. -/
theorem C3_decrypt_failure_aborts_reader (c : Crypto) (s : ClientState)
    (d : ClientDescription) (env : List Byte × List Byte × List Byte)
    (rest : List ClientBoundMessage) (h : openEnvelope c env = none) :
    clientStep c s (.message d env) = none ∧
    runReader c s (.message d env :: rest) = (s, [], true) := by
  have hstep : clientStep c s (.message d env) = none := by
    unfold openEnvelope at h
    simp only [clientStep]
    cases hr : c.rsaDecrypt env.1 with
    | none => rfl
    | some sk =>
      rw [hr] at h
      by_cases hl : sk.length = 32
      · simp only [hl, if_true] at h ⊢
        cases ha : c.aesDecrypt sk env.2.1 env.2.2 with
        | none => rfl
        | some p =>
          rw [ha] at h
          simp only [] at h
          simp [h]
      · simp [hl]
  exact ⟨hstep, by simp [runReader, hstep]⟩

/-- Witness for C3's amended theorem at a concrete failing envelope. -/
theorem C3_decrypt_failure_aborts_reader_witness :
    clientStep cryptoRsaFails initialClientState
        (.message ([], uuidA) ([1], [2], [3])) = none ∧
      runReader cryptoRsaFails initialClientState
        [.message ([], uuidA) ([1], [2], [3])] = (initialClientState, [], true) :=
  C3_decrypt_failure_aborts_reader cryptoRsaFails initialClientState ([], uuidA)
    ([1], [2], [3]) [] rfl

/-- C5: the `ClientList` snapshot computed at accept time — after the new
unnamed record is inserted — contains exactly the peers of the prior table
whose friendly name is set, omits every unnamed peer (in particular the
newly accepted peer itself, whose record has no name yet), and has no
duplicate entries (given distinct UUID keys, as the server's `HashMap` and
fresh v4 identifiers guarantee). -/
theorem C5_snapshot_named_peers (table : PeerTable) (newId : Uuid)
    (hnodup : (table.map Prod.fst).Nodup) (hnew : tableHas table newId = false) :
    (acceptPeer table newId).2 =
      [(newId, .setUuid newId),
       (newId, .clientList (snapshot (table ++ [(newId, none)])))] ∧
    (∀ n u, (n, u) ∈ snapshot (table ++ [(newId, none)]) ↔ (u, some n) ∈ table) ∧
    (∀ n, (n, newId) ∉ snapshot (table ++ [(newId, none)])) ∧
    (snapshot (table ++ [(newId, none)])).Nodup := by
  have hsnap : snapshot (table ++ [(newId, none)]) = snapshot table := by
    simp [snapshot, List.filterMap_append]
  refine ⟨rfl, ?_, ?_, ?_⟩
  · rw [hsnap]
    exact fun n u => mem_snapshot table n u
  · intro n hmem
    rw [hsnap, mem_snapshot] at hmem
    have : ∀ e ∈ table, ¬ e.1 = newId := by
      simpa [tableHas, List.any_eq_false] using hnew
    exact this (newId, some n) hmem rfl
  · rw [hsnap]
    exact snapshot_nodup table hnodup

/-- Concrete identifiers and a key for witnesses. -/
def uuidB : Uuid := List.replicate 16 2

/-- Another concrete identifier. -/
def uuidC : Uuid := List.replicate 16 3

/-- A concrete RSA key content. -/
def keyA : RsaKey := ⟨[1], [3]⟩

/-- Witness for C5 on a concrete table with one named and one unnamed peer:
the named peer is in the snapshot, the newly accepted peer is not, and the
snapshot has no duplicates. -/
theorem C5_snapshot_named_peers_witness :
    ([97], uuidB) ∈ snapshot ([(uuidB, some [97]), (uuidC, none)] ++ [(uuidA, none)]) ∧
    ([], uuidA) ∉ snapshot ([(uuidB, some [97]), (uuidC, none)] ++ [(uuidA, none)]) ∧
    (snapshot ([(uuidB, some [97]), (uuidC, none)] ++ [(uuidA, none)])).Nodup := by
  have T := C5_snapshot_named_peers [(uuidB, some [97]), (uuidC, none)] uuidA
    (by decide) (by decide)
  exact ⟨(T.2.1 [97] uuidB).mpr (by decide), T.2.2.1 [], T.2.2.2⟩

/-- C6: on an inbound `ConnectionRequest`, the pair is inserted into
`connection_requests` exactly when no pending entry has the same originator
id; otherwise the state is unchanged. Nothing else changes and nothing is
delivered; in particular a duplicate request while one is pending has no
effect. -/
theorem C6_duplicate_request_suppressed (c : Crypto) (s : ClientState)
    (d : ClientDescription) (k : RsaKey) :
    ((∃ e ∈ s.connection_requests, e.1.2 = d.2) →
      clientStep c s (.connectionRequest d k) = some (s, [])) ∧
    (¬ (∃ e ∈ s.connection_requests, e.1.2 = d.2) →
      clientStep c s (.connectionRequest d k) =
        some ({ s with connection_requests := s.connection_requests ++ [(d, k)] },
          [])) := by
  constructor
  · intro hdup
    have hany : (s.connection_requests.any fun e => e.1.2 = d.2) = true := by
      simpa [List.any_eq_true] using hdup
    simp [clientStep, hany]
  · intro hdup
    have hany : (s.connection_requests.any fun e => e.1.2 = d.2) = false := by
      refine List.any_eq_false.mpr ?_
      intro e he
      simp only [decide_eq_true_eq]
      exact fun hEq => hdup ⟨e, he, hEq⟩
    simp [clientStep, hany]

/-- A concrete state holding one pending connection request. -/
def stateWithPending : ClientState :=
  { initialClientState with connection_requests := [((([], uuidA)), keyA)] }

/-- Witness for C6: a first request from `uuidA` is inserted; a second
request with the same originator id (different name field) leaves the state
unchanged. -/
theorem C6_duplicate_request_suppressed_witness :
    clientStep cryptoRsaFails initialClientState
        (.connectionRequest ([], uuidA) keyA) = some (stateWithPending, []) ∧
    clientStep cryptoRsaFails stateWithPending
        (.connectionRequest ([97], uuidA) keyA) = some (stateWithPending, []) :=
  ⟨(C6_duplicate_request_suppressed cryptoRsaFails initialClientState
      ([], uuidA) keyA).2 (by simp [initialClientState]),
   (C6_duplicate_request_suppressed cryptoRsaFails stateWithPending
      ([97], uuidA) keyA).1
      ⟨((([], uuidA)), keyA), by simp [stateWithPending], rfl⟩⟩

/-- C8: on `ClientDisconnected(id)`, exactly the `peer_list` entries with
that id are removed (membership in the new list is membership in the old one
plus a different id), and every other component of the client state —
`uuid`, `connection_requests`, `open_connections` and `current_channel` — is
unchanged, even when they refer to the disconnected peer. -/
theorem C8_disconnect_removes_only_peer_list (c : Crypto) (s : ClientState)
    (u : Uuid) :
    clientStep c s (.clientDisconnected u) =
      some ({ s with peer_list := s.peer_list.filter (fun e => e.2 ≠ u) }, []) ∧
    ∀ d, d ∈ s.peer_list.filter (fun e => e.2 ≠ u) ↔ d ∈ s.peer_list ∧ d.2 ≠ u :=
  ⟨rfl, by intro d; simp [List.mem_filter]⟩

/-- C7: opening a connection to an id that is already an established pairing
sends no network message and changes nothing but `current_channel`, which is
set to that id; doing it again yields the same state and again no traffic. -/
theorem C7_open_established_idempotent (s : ClientState) (u : Uuid)
    (ownPk : RsaKey) (h : hasKey s.open_connections u = true) :
    openConnection s u ownPk = ({ s with current_channel := some u }, []) ∧
    openConnection (openConnection s u ownPk).1 u ownPk =
      ({ s with current_channel := some u }, []) := by
  have h1 : openConnection s u ownPk = ({ s with current_channel := some u }, []) := by
    simp [openConnection, h]
  refine ⟨h1, ?_⟩
  rw [h1]
  simp [openConnection, h]

/-- A concrete state holding one established pairing. -/
def stateWithPairing : ClientState :=
  { initialClientState with open_connections := [(uuidA, keyA)] }

/-- Witness for C7 at a concrete paired state. -/
theorem C7_open_established_idempotent_witness :
    openConnection stateWithPairing uuidA keyA =
      ({ stateWithPairing with current_channel := some uuidA }, []) ∧
    openConnection (openConnection stateWithPairing uuidA keyA).1 uuidA keyA =
      ({ stateWithPairing with current_channel := some uuidA }, []) :=
  C7_open_established_idempotent stateWithPairing uuidA keyA (by decide)

/-- C9: the hybrid envelope round-trips. For a 32-byte session key and
primitives satisfying their inverse laws for this keypair and message (the
external `rsa` and `aes_gcm` crates' contracts, and `String::from_utf8` on
`as_bytes`), the envelope built exactly as `ui_send_message` builds it is
decrypted by the inbound path of `Client::handle` back to the original
plaintext; the receiver's step delivers that plaintext (with the resolved
name) and leaves its state unchanged. -/
theorem C9_envelope_round_trip (c : Crypto) (pk : RsaKey)
    (sessionKey nonce : List Byte) (text : String)
    (hk : sessionKey.length = 32)
    (hrsa : c.rsaDecrypt (c.rsaEncrypt pk sessionKey) = some sessionKey)
    (haes : c.aesDecrypt sessionKey nonce
        (c.aesEncrypt sessionKey nonce (c.utf8Encode text)) =
      some (c.utf8Encode text))
    (hutf : c.utf8Decode (c.utf8Encode text) = some text) :
    openEnvelope c (buildEnvelope c pk sessionKey nonce text) = some text ∧
    ∀ (s : ClientState) (d : ClientDescription),
      clientStep c s (.message d (buildEnvelope c pk sessionKey nonce text)) =
        some (s, [(resolveName s d, text)]) := by
  constructor
  · simp [openEnvelope, buildEnvelope, hrsa, hk, haes, hutf]
  · intro s d
    simp [clientStep, buildEnvelope, hrsa, hk, haes, hutf]

/-- A concrete crypto environment whose primitives are trivially invertible,
used to instantiate the abstract primitive laws in witnesses. -/
def cryptoId : Crypto where
  rsaEncrypt := fun _ k => k
  rsaDecrypt := fun ct => some ct
  aesEncrypt := fun _ _ m => m
  aesDecrypt := fun _ _ ct => some ct
  utf8Encode := fun t => t.toList.map Char.toNat
  utf8Decode := fun bs => some (String.mk (bs.map Char.ofNat))

/-- Witness for C9 at a concrete key, nonce and plaintext. -/
theorem C9_envelope_round_trip_witness :
    openEnvelope cryptoId
        (buildEnvelope cryptoId keyA (List.replicate 32 7) (List.replicate 12 9)
          "hi") = some "hi" :=
  (C9_envelope_round_trip cryptoId keyA (List.replicate 32 7)
    (List.replicate 12 9) "hi" (by decide) rfl rfl (by decide)).1

/-- `uiSendMessage` never changes the client state when it succeeds. -/
theorem uiSendMessage_state_eq (c : Crypto) (s s' : ClientState)
    (sessionKey nonce : List Byte) (text : String)
    (msgs : List ServerBoundMessage)
    (h : uiSendMessage c s sessionKey nonce text = some (s', msgs)) : s' = s := by
  unfold uiSendMessage at h
  cases hch : s.current_channel with
  | none =>
    rw [hch] at h
    simp only [Option.some.injEq, Prod.mk.injEq] at h
    exact h.1.symm
  | some ch =>
    rw [hch] at h
    simp only [] at h
    cases hlk : lookupKey s.open_connections ch with
    | none =>
      rw [hlk] at h
      simp at h
    | some pk =>
      rw [hlk] at h
      simp only [Option.some.injEq, Prod.mk.injEq] at h
      exact h.1.symm

/-- One `clientStep` preserves the channel invariant: if every selected
channel was an established pairing before the step, it still is after. -/
theorem clientStep_preserves_channel (c : Crypto) (s s' : ClientState)
    (m : ClientBoundMessage) (out : List UiDelivery)
    (hstep : clientStep c s m = some (s', out))
    (hinv : ∀ ch, s.current_channel = some ch → hasKey s.open_connections ch = true) :
    ∀ ch, s'.current_channel = some ch → hasKey s'.open_connections ch = true := by
  cases m with
  | setUuid u =>
    simp only [clientStep, Option.some.injEq, Prod.mk.injEq] at hstep
    obtain ⟨h1, -⟩ := hstep
    subst h1
    simpa using hinv
  | clientList l =>
    simp only [clientStep, Option.some.injEq, Prod.mk.injEq] at hstep
    obtain ⟨h1, -⟩ := hstep
    subst h1
    simpa using hinv
  | newClient d =>
    simp only [clientStep, Option.some.injEq, Prod.mk.injEq] at hstep
    obtain ⟨h1, -⟩ := hstep
    subst h1
    simpa using hinv
  | clientDisconnected u =>
    simp only [clientStep, Option.some.injEq, Prod.mk.injEq] at hstep
    obtain ⟨h1, -⟩ := hstep
    subst h1
    simpa using hinv
  | connectionRequest d k =>
    simp only [clientStep] at hstep
    by_cases hany : (s.connection_requests.any fun e => e.1.2 = d.2) = true
    · rw [if_pos hany] at hstep
      simp only [Option.some.injEq, Prod.mk.injEq] at hstep
      obtain ⟨h1, -⟩ := hstep
      subst h1
      exact hinv
    · rw [if_neg hany] at hstep
      simp only [Option.some.injEq, Prod.mk.injEq] at hstep
      obtain ⟨h1, -⟩ := hstep
      subst h1
      simpa using hinv
  | connectionResponse d k =>
    simp only [clientStep, Option.some.injEq, Prod.mk.injEq] at hstep
    obtain ⟨h1, -⟩ := hstep
    subst h1
    intro ch hch
    simp only at hch ⊢
    exact hasKey_insertKey_mono _ _ _ _ (hinv ch hch)
  | message d env =>
    simp only [clientStep] at hstep
    cases hr : c.rsaDecrypt env.1 with
    | none =>
      rw [hr] at hstep
      simp at hstep
    | some sk =>
      rw [hr] at hstep
      simp only [] at hstep
      by_cases hl : sk.length = 32
      · rw [if_pos hl] at hstep
        cases ha : c.aesDecrypt sk env.2.1 env.2.2 with
        | none =>
          rw [ha] at hstep
          simp at hstep
        | some p =>
          rw [ha] at hstep
          simp only [] at hstep
          cases hu : c.utf8Decode p with
          | none =>
            rw [hu] at hstep
            simp at hstep
          | some t =>
            rw [hu] at hstep
            simp only [Option.some.injEq, Prod.mk.injEq] at hstep
            obtain ⟨h1, -⟩ := hstep
            subst h1
            exact hinv
      · rw [if_neg hl] at hstep
        simp at hstep

/-- C10: in every reachable client state, a selected current channel is an
established pairing (`current_channel = some id` implies `id` is a key of
`open_connections`), so the pairing lookup in `ui_send_message` never hits
its panicking `unwrap`: sending a text never fails. -/
theorem C10_channel_always_paired (c : Crypto) (ownPk : RsaKey)
    (s : ClientState) (h : Reach c ownPk s) :
    (∀ ch, s.current_channel = some ch → hasKey s.open_connections ch = true) ∧
    ∀ sessionKey nonce text,
      uiSendMessage c s sessionKey nonce text ≠ none := by
  have inv : ∀ ch, s.current_channel = some ch →
      hasKey s.open_connections ch = true := by
    induction h with
    | init => intro ch hch; simp [initialClientState] at hch
    | @inbound s s' m out hr hstep ih =>
      exact clientStep_preserves_channel c s s' m out hstep ih
    | @openConn s u hr ih =>
      intro ch hch
      unfold openConnection at hch ⊢
      by_cases hk : hasKey s.open_connections u = true
      · rw [if_pos hk] at hch ⊢
        simp only at hch ⊢
        have hu : u = ch := by simpa using hch
        exact hu ▸ hk
      · rw [if_neg hk] at hch ⊢
        exact ih ch hch
    | @accept s e hr hmem ih =>
      intro ch hch
      simp only [acceptConnection] at hch ⊢
      exact hasKey_insertKey_mono _ _ _ _ (ih ch hch)
    | @send s s' k n t msgs hr hsend ih =>
      have hss : s' = s := uiSendMessage_state_eq c s s' k n t msgs hsend
      subst hss
      exact ih
  refine ⟨inv, ?_⟩
  intro sessionKey nonce text
  unfold uiSendMessage
  cases hch : s.current_channel with
  | none => simp
  | some ch =>
    have hsome := lookupKey_isSome_of_hasKey _ _ (inv ch hch)
    cases hlk : lookupKey s.open_connections ch with
    | none => rw [hlk] at hsome; simp at hsome
    | some pk => simp [hlk]

/-- Witness for C10 at the initial state, which is reachable by
`Reach.init`: sending with no channel selected does not panic. -/
theorem C10_channel_always_paired_witness :
    uiSendMessage cryptoId initialClientState [] [] "" ≠ none :=
  (C10_channel_always_paired cryptoId keyA initialClientState Reach.init).2 [] [] ""

end YCNBTS
